import Mathlib

/-!
Verification of the lispish interpreter (src/main.py): a shallow embedding of
its tokenizer (`InStream`), reader (`read`), expression model, environment
chain and evaluator (`eval_` / `apply_`), together with theorems settling the
frozen claims about the program.

Modelling conventions:
* Python `Symbol` / `Number` subclass `str` / `int`; they are modelled as
  tagged variants carrying a `String` / `Int` (equality on symbols is equality
  of their text, exactly as Python string equality behaves on `Symbol`).
* Environments are mutable shared objects in Python.  They are modelled as a
  store (`State`, a list of `Frame`s) addressed by numeric ids; a frame holds
  an association list of bindings (most recent first, mirroring
  `dict` overwrite-on-insert) and an optional parent id.
* Python's unbounded recursion is modelled with a fuel parameter; running out
  of fuel yields the distinguished error `Err.timeout`, which corresponds to
  no Python exception (it models non-termination / insufficient fuel only).
* Exceptions are modelled with `Except Err`; an error aborts evaluation.
-/

namespace Lispish

/-- Errors raised by the interpreter.  Each constructor corresponds to a
Python exception type raised in src/main.py; `timeout` is the fuel-exhaustion
marker of the model (it corresponds to no Python exception). -/
inductive Err : Type
  | valueError (msg : String)
  | typeError (msg : String)
  | synError (msg : String)
  | assertionError
  | indexError
  | timeout
deriving DecidableEq, Repr

/-- The single native builtin of the program is `lambda a, b: a + b`,
installed under the symbol `+`. -/
inductive BuiltinFn : Type
  | plus
deriving DecidableEq, Repr

/-- The expression model of src/main.py: `Symbol` (a str subclass), `Number`
(an int subclass), `List`, user `Procedure` (params, body, captured
environment id) and `BuiltinProcedure` (native callable). -/
inductive Expression : Type
  | Symbol (s : String)
  | Number (n : Int)
  | List (es : List Expression)
  | Procedure (params : List String) (body : Expression) (envId : Nat)
  | BuiltinProcedure (fn : BuiltinFn)
deriving Repr

/-- A raw Python value as returned by a native builtin before `Atom.of`
wraps it back into the expression model: an int, a str, or a list (the
values `lambda a, b: a + b` can produce on expression arguments). -/
inductive Raw : Type
  | int (n : Int)
  | str (s : String)
  | list (es : List Expression)
deriving Repr

/-- One environment frame: `self.env` (bindings, most recent first; lookup
takes the first hit, so insertion-by-prepend models dict overwrite) and
`self.outer` (parent frame id). -/
structure Frame : Type where
  bindings : List (String × Expression)
  outer : Option Nat
deriving Repr

/-- The store of environment frames; Python environment objects are modelled
as indices into this list.  Frames are only ever appended or updated in
place, mirroring Python object identity. -/
abbrev State := List Frame

/- ## Tokenizer (class InStream) -/

/-- A lexical token.  `InStream.EOF_TOKEN` is a reserved sentinel *object*;
`read` tests for it with `is` (object identity), so it is modelled as a
separate constructor, distinct from every token built from input text even
when the text coincides. -/
inductive Token : Type
  | eof
  | tok (s : String)
deriving DecidableEq, Repr

/-- The text of a token (`Token` subclasses `str` in Python; `EOF_TOKEN` is
`Token("#<eof-object>")`). -/
def tokenText : Token → String
  | .eof => "#<eof-object>"
  | .tok s => s

/-- Python `\s` on ASCII input: space, tab, newline, carriage return,
vertical tab, form feed. -/
def pySpace (c : Char) : Bool :=
  c == ' ' || c == '\t' || c == '\n' || c == '\r' || c == '\x0b' || c == '\x0c'

/-- The delimiter set of the bare-token alternative `[^\s('"`,;)]` of
`TOKEN_REGEX`: whitespace and the seven punctuation characters. -/
def bareDelim (c : Char) : Bool :=
  pySpace c || c == '(' || c == '\'' || c == '"' || c == '`' || c == ',' || c == ';' || c == ')'

/-- The trailing `(.*)` capture of `TOKEN_REGEX`: `.` does not match a
newline, so the remainder is the maximal newline-free prefix. -/
def restOfLine (cs : List Char) : List Char :=
  cs.takeWhile (fun c => c != '\n')

/-- The quoted-string alternative `"(?:[\\].|[^\\"])*"` of `TOKEN_REGEX`,
scanning the characters after the opening quote.  A backslash must be
followed by a non-newline character; any other character except `"` and `\`
(including a newline) is consumed verbatim; the scan succeeds on the first
unescaped closing quote.  Returns the consumed characters (closing quote
included) and the rest. -/
def scanStr : List Char → Option (List Char × List Char)
  | [] => none
  | '"' :: rest => some (['"'], rest)
  | '\\' :: c :: rest =>
      if c = '\n' then none
      else (scanStr rest).map (fun p => ('\\' :: c :: p.1, p.2))
  | ['\\'] => none
  | c :: rest => (scanStr rest).map (fun p => (c :: p.1, p.2))

/-- The capture-group dispatch of `TOKEN_REGEX` after the leading `\s*` has
been consumed: `[()]`, then the quoted string, then `;.*` (a comment *is*
captured as the token), then the maximal run of non-delimiter characters
(possibly empty).  Returns (token text, remainder of the buffered line). -/
def matchTokenCore : List Char → String × String
  | [] => ("", "")
  | '(' :: rest => ("(", (restOfLine rest).asString)
  | ')' :: rest => (")", (restOfLine rest).asString)
  | '"' :: rest =>
      match scanStr rest with
      | some (tk, r) => (('"' :: tk).asString, (restOfLine r).asString)
      | none => ("", (restOfLine ('"' :: rest)).asString)
  | ';' :: rest =>
      ((';' :: rest.takeWhile (fun c => c != '\n')).asString,
        (restOfLine (rest.dropWhile (fun c => c != '\n'))).asString)
  | c :: rest =>
      (((c :: rest).takeWhile (fun d => !bareDelim d)).asString,
        (restOfLine ((c :: rest).dropWhile (fun d => !bareDelim d))).asString)

/-- One application of `re.match(TOKEN_REGEX, line)`: skip leading
whitespace, capture one token, return it with the unconsumed remainder. -/
def matchToken (s : String) : String × String :=
  matchTokenCore (s.toList.dropWhile pySpace)

/-- The tokenizer state: the remaining lines the underlying file will yield
(`readline` returns `""` once they are exhausted) and the one-line
read-ahead buffer `self.line` (`none` initially). -/
structure InStream : Type where
  lines : List String
  line : Option String
deriving Repr

/-- Python truthiness of `self.line`: `None` and `""` are falsy. -/
def lineEmpty : Option String → Bool
  | none => true
  | some s => s == ""

/-- `f.readline()`: the next line, or `""` at end of file. -/
def pull : List String → String × List String
  | [] => ("", [])
  | l :: ls => (l, ls)

/-- `InStream.next`: refill the buffer when it is empty; return the EOF
sentinel when the source is exhausted; otherwise match one token and loop
while the captured token is empty (whitespace-only remainders).  The fuel
bounds the loop (Python loops forever on pathological input such as a lone
`'`). -/
def InStream.next : Nat → InStream → Option (Token × InStream)
  | 0, _ => none
  | fuel+1, st =>
    match (if lineEmpty st.line then pull st.lines else (st.line.getD "", st.lines)) with
    | (ln, rest) =>
      if ln == "" then some (.eof, ⟨rest, some ""⟩)
      else
        match matchToken ln with
        | (tk, rem) =>
          if tk == "" then InStream.next fuel ⟨rest, some rem⟩
          else some (.tok tk, ⟨rest, some rem⟩)

/- ## Literal classification (Atom.of) -/

/-- Python `str.strip()` as used by `int(...)` on its string argument. -/
def pyStrip (s : String) : List Char :=
  ((s.toList.dropWhile pySpace).reverse.dropWhile pySpace).reverse

/-- After a first digit, Python's integer literal grammar allows further
digits with single underscores strictly between digits. -/
def pyDigitsRest : List Char → Bool
  | [] => true
  | '_' :: c :: rest => c.isDigit && pyDigitsRest rest
  | ['_'] => false
  | c :: rest => c.isDigit && pyDigitsRest rest

/-- Numeric value of a run of digits (underscores removed beforehand). -/
def digitsVal (cs : List Char) : Nat :=
  cs.foldl (fun n c => 10 * n + (c.toNat - 48)) 0

/-- An unsigned Python integer literal: at least one digit, underscores only
between digits. -/
def pyNat? : List Char → Option Nat
  | [] => none
  | c :: rest =>
      if c.isDigit && pyDigitsRest rest then
        some (digitsVal ((c :: rest).filter (fun d => d != '_')))
      else none

/-- `int(s)` for a str argument: strip whitespace, optional sign, digits;
`none` models the `ValueError` that `Atom.of` catches. -/
def pyIntParse (s : String) : Option Int :=
  match pyStrip s with
  | '+' :: rest => (pyNat? rest).map Int.ofNat
  | '-' :: rest => (pyNat? rest).map (fun n => -(Int.ofNat n))
  | cs => (pyNat? cs).map Int.ofNat

/-- `Atom.of` on a str: try `Number(token)`; on `ValueError` fall back to
`Symbol(token)`.  This is the reader's literal-classification rule. -/
def atomOfStr (s : String) : Expression :=
  match pyIntParse s with
  | some n => .Number n
  | none => .Symbol s

/-- `Atom.of` on an arbitrary raw native value: an int always becomes a
`Number`; a str becomes a `Number` when `int()` accepts it, else a `Symbol`;
any other value (e.g. a list) makes `Number.__init__`'s `int(...)` raise
`TypeError`, which `Atom.of` does *not* catch. -/
def Atom.of : Raw → Except Err Expression
  | .int n => .ok (.Number n)
  | .str s => .ok (atomOfStr s)
  | .list _ => .error (.typeError "int() argument must be a string or a number, not list")

/- ## Reader -/

/-- `EOF_SYMBOL = Symbol(InStream.EOF_TOKEN)`: the designated end-of-input
expression returned by `read` on an exhausted source. -/
def EOF_SYMBOL : Expression := .Symbol "#<eof-object>"

mutual

/-- `read_ahead(token)` of src/main.py: `(` opens a list, a bare `)` is a
syntax error, the EOF sentinel (compared by object identity) inside an
expression is a syntax error, anything else is classified by `Atom.of`. -/
def readAhead : Nat → Token → InStream → Except Err (Expression × InStream)
  | 0, _, _ => .error .timeout
  | fuel+1, t, st =>
    if tokenText t == "(" then readList fuel st []
    else if tokenText t == ")" then .error (.synError "Unexpected )")
    else
      match t with
      | .eof => .error (.synError "Unexpected EOF in list")
      | .tok s => .ok (atomOfStr s, st)

/-- The `while True` loop inside `read_ahead` for an open list: pull tokens,
close on `)`, otherwise recurse and append. -/
def readList : Nat → InStream → List Expression → Except Err (Expression × InStream)
  | 0, _, _ => .error .timeout
  | fuel+1, st, acc =>
    match InStream.next (fuel+1) st with
    | none => .error .timeout
    | some (t, st') =>
      if tokenText t == ")" then .ok (.List acc, st')
      else
        match readAhead fuel t st' with
        | .error e => .error e
        | .ok (e, st'') => readList fuel st'' (acc ++ [e])

end

/-- `read(stream)`: pull one token; the EOF sentinel (by identity) yields
`EOF_SYMBOL`, anything else is expanded by `read_ahead`. -/
def read : Nat → InStream → Except Err (Expression × InStream)
  | 0, _ => .error .timeout
  | fuel+1, st =>
    match InStream.next (fuel+1) st with
    | none => .error .timeout
    | some (.eof, st') => .ok (EOF_SYMBOL, st')
    | some (.tok s, st') => readAhead fuel (.tok s) st'

/- ## Environment (class Environment) -/

/-- `sym in self.env` / `self.env[sym]`: dictionary lookup in one frame.
Bindings are kept most-recent-first, so the first hit is the last write. -/
def frameGet? (b : List (String × Expression)) (s : String) : Option Expression :=
  match b.find? (fun p => p.1 == s) with
  | some p => some p.2
  | none => none

/-- `Environment.__setitem__`: insert or overwrite in the *local* frame of
the environment with id `i` (frames other than `i` are untouched). -/
def envSet (st : State) (i : Nat) (s : String) (v : Expression) : State :=
  match st[i]? with
  | some fr => st.set i ⟨(s, v) :: fr.bindings, fr.outer⟩
  | none => st

/-- `Environment.__getitem__`: search the local frame, then the parent
chain; raise `ValueError("Undefined symbol: ...")` at the root.  The fuel
bounds the chain walk (for well-formed stores, parent ids strictly decrease,
so `i + 1` steps always suffice). -/
def lookupEnv : Nat → State → Nat → String → Except Err Expression
  | 0, _, _, _ => .error .timeout
  | fuel+1, st, i, s =>
    match st[i]? with
    | none => .error .timeout
    | some fr =>
      match frameGet? fr.bindings s with
      | some v => .ok v
      | none =>
        match fr.outer with
        | some j => lookupEnv fuel st j s
        | none => .error (.valueError "Undefined symbol")

/-- `Environment.__init__`: `for param, arg in zip(params, args):
self.env[param] = arg` — sequential dict insertion of the zipped pairs
(extra arguments beyond the parameters are dropped by `zip`, and so are
extra parameters beyond the arguments). -/
def bindParams (params : List String) (args : List Expression) : List (String × Expression) :=
  (params.zip args).foldl (fun b pa => pa :: b) []

/-- A freshly constructed `Environment(params, args, outer)` frame. -/
def newEnvFrame (params : List String) (args : List Expression) (outer : Option Nat) : Frame :=
  ⟨bindParams params args, outer⟩

/-- Does the frame at index `j` point only to a strictly earlier frame? -/
def frameOK (j : Nat) (fr : Frame) : Bool :=
  match fr.outer with
  | none => true
  | some k => decide (k < j)

/-- Well-formedness of a store: every frame's parent id is strictly smaller
than its own index.  Every store reachable by the interpreter from the
global environment satisfies this (frames are appended with an existing
parent). -/
def WFState (st : State) : Bool :=
  (List.range st.length).all fun j =>
    match st[j]? with
    | some fr => frameOK j fr
    | none => true

/- ## Evaluator / Applier -/

/-- Python truthiness of an `Expression`: the empty symbol, the number `0`
and the empty list are falsy (str/int/list subclasses); procedures are
truthy. -/
def exprFalsy : Expression → Bool
  | .Symbol s => s == ""
  | .Number n => n == 0
  | .List es => es.isEmpty
  | .Procedure _ _ _ => false
  | .BuiltinProcedure _ => false

/-- Python truthiness of the `Optional[Expression]` argument of `eval_`:
`not exp` holds for `None` and for every falsy expression. -/
def pyFalsy : Option Expression → Bool
  | none => true
  | some e => exprFalsy e

/-- Python `first == Symbol(name)`: true exactly when `first` is a `Symbol`
with equal text (int/list/procedure values never compare equal to a str). -/
def isSymNamed (e : Expression) (name : String) : Bool :=
  match e with
  | .Symbol s => s == name
  | _ => false

/-- `NIL = Symbol("nil")`, the result of a `define` form. -/
def NIL : Expression := .Symbol "nil"

/-- `lambda a, b: a + b` applied to two expression values: Python `+` on the
underlying int/str/list payloads; mixed payload types raise `TypeError`. -/
def pyAdd : Expression → Expression → Except Err Raw
  | .Number m, .Number n => .ok (.int (m + n))
  | .Symbol s, .Symbol t => .ok (.str (s ++ t))
  | .List xs, .List ys => .ok (.list (xs ++ ys))
  | _, _ => .error (.typeError "unsupported operand types for +")

/-- `self.callable(*args)` for a builtin: the only builtin is the
two-argument native addition; any other argument count raises `TypeError`
at the call. -/
def callBuiltin : BuiltinFn → List Expression → Except Err Raw
  | .plus, [a, b] => pyAdd a b
  | .plus, _ => .error (.typeError "wrong number of arguments")

mutual

/-- `eval_(exp, env)` of src/main.py over the store model.  The dispatch
order mirrors the source: the `if not exp` truthiness guard first, then
`Symbol` (environment lookup), `Number` (self-evaluating), the non-`List`
type error, then the list forms `define`, `begin`, and application. -/
def eval_ : Nat → Option Expression → Nat → State → Except Err (State × Expression)
  | 0, _, _, _ => .error .timeout
  | fuel+1, oexp, i, st =>
    if pyFalsy oexp then .error (.valueError "Can't evaluate nothing")
    else
      match oexp with
      | none => .error (.valueError "Can't evaluate nothing")
      | some (.Symbol s) =>
        match lookupEnv (i+1) st i s with
        | .ok v => .ok (st, v)
        | .error e => .error e
      | some (.Number n) => .ok (st, .Number n)
      | some (.Procedure _ _ _) => .error (.typeError "Unknown type")
      | some (.BuiltinProcedure _) => .error (.typeError "Unknown type")
      | some (.List []) => .error (.valueError "not enough values to unpack")
      | some (.List (first :: rest)) =>
        if isSymNamed first "define" then
          match rest with
          | [sym, val] =>
            match sym with
            | .Symbol s => .ok (envSet st i s val, NIL)
            | _ => .error (.typeError "Value is not of type Symbol")
          | _ => .error .assertionError
        else if isSymNamed first "begin" then
          match evalSeq fuel rest st.length (st ++ [⟨[], some i⟩]) with
          | .error e => .error e
          | .ok (st2, vals) =>
            match vals.getLast? with
            | some v => .ok (st2, v)
            | none => .error .indexError
        else
          match eval_ fuel (some first) i st with
          | .error e => .error e
          | .ok (st1, f) =>
            match evalSeq fuel rest i st1 with
            | .error e => .error e
            | .ok (st2, args) => apply_ fuel f args st2

/-- `list(map(lambda x: eval_(x, env), rest))`: left-to-right evaluation of
a sequence of expressions, threading the store. -/
def evalSeq : Nat → List Expression → Nat → State → Except Err (State × List Expression)
  | 0, _, _, _ => .error .timeout
  | _+1, [], _, st => .ok (st, [])
  | fuel+1, e :: es, i, st =>
    match eval_ fuel (some e) i st with
    | .error err => .error err
    | .ok (st1, v) =>
      match evalSeq fuel es i st1 with
      | .error err => .error err
      | .ok (st2, vs) => .ok (st2, v :: vs)

/-- `apply_(proc, args)`: a non-procedure raises `TypeError`; a user
`Procedure` evaluates its body in a fresh frame binding its parameters to
the arguments with the captured environment as parent
(`Environment(self.params, args, self.env)`); a `BuiltinProcedure` calls
the native function and wraps the raw result with `Atom.of`. -/
def apply_ : Nat → Expression → List Expression → State → Except Err (State × Expression)
  | 0, _, _, _ => .error .timeout
  | fuel+1, .Procedure params body envId, args, st =>
    eval_ fuel (some body) st.length (st ++ [newEnvFrame params args (some envId)])
  | _+1, .BuiltinProcedure fn, args, st =>
    match callBuiltin fn args with
    | .error e => .error e
    | .ok raw =>
      match Atom.of raw with
      | .error e => .error e
      | .ok v => .ok (st, v)
  | _+1, _, _, _ => .error (.typeError "Not a procedure")

end

/-- The global environment of the interactive session: a root frame binding
`+` to the builtin addition procedure. -/
def globalEnv : State := [⟨[("+", .BuiltinProcedure .plus)], none⟩]

/- ## Helper lemmas about frame construction -/

theorem foldlConsRev {α : Type} (l : List α) :
    ∀ acc : List α, l.foldl (fun b a => a :: b) acc = l.reverse ++ acc := by
  induction l with
  | nil => intro acc; simp
  | cons x xs ih => intro acc; simp [List.foldl_cons, ih (x :: acc)]

theorem bindParams_eq (ps : List String) (as : List Expression) :
    bindParams ps as = (ps.zip as).reverse := by
  simp [bindParams, foldlConsRev]

theorem zipExtra {α β : Type} :
    ∀ (l1 : List α) (l2 l3 : List β), l1.length ≤ l2.length →
      l1.zip (l2 ++ l3) = l1.zip l2 := by
  intro l1
  induction l1 with
  | nil => intro l2 l3 _; simp
  | cons a as ih =>
    intro l2 l3 h
    cases l2 with
    | nil => simp at h
    | cons b bs =>
      simp only [List.cons_append, List.zip_cons_cons]
      rw [ih bs l3 (by simpa using h)]

theorem zipKeysTake {α β : Type} :
    ∀ (l1 : List α) (l2 : List β) (pr : α × β), pr ∈ l1.zip l2 →
      pr.1 ∈ l1.take l2.length := by
  intro l1
  induction l1 with
  | nil => intro l2 pr h; simp [List.zip] at h
  | cons a as ih =>
    intro l2 pr h
    cases l2 with
    | nil => simp [List.zip] at h
    | cons b bs =>
      simp only [List.zip_cons_cons, List.mem_cons] at h
      rcases h with h | h
      · subst h; simp
      · simp only [List.length_cons, List.take_succ_cons, List.mem_cons]
        exact Or.inr (ih bs pr h)

theorem frameGetAppend (b1 b2 : List (String × Expression)) (s : String) :
    frameGet? (b1 ++ b2) s
      = match frameGet? b1 s with
        | some v => some v
        | none => frameGet? b2 s := by
  simp only [frameGet?, List.find?_append]
  cases hf : List.find? (fun p => p.1 == s) b1 <;> simp [hf, Option.or]

theorem frameGetNone (b : List (String × Expression)) (s : String)
    (h : ∀ pr ∈ b, pr.1 ≠ s) : frameGet? b s = none := by
  have : b.find? (fun p => p.1 == s) = none := by
    rw [List.find?_eq_none]
    intro x hx
    simp [h x hx]
  simp [frameGet?, this]

theorem bindParamsLookup :
    ∀ (params : List String) (args : List Expression) (k : Nat)
      (h1 : k < params.length) (h2 : k < args.length), params.Nodup →
      frameGet? (bindParams params args) params[k] = some args[k] := by
  intro params
  induction params with
  | nil => intro args k h1; simp at h1
  | cons p ps ih =>
    intro args k h1 h2 hnd
    cases args with
    | nil => simp at h2
    | cons a as =>
      have hb : bindParams (p :: ps) (a :: as) = (ps.zip as).reverse ++ [(p, a)] := by
        simp [bindParams_eq, List.zip_cons_cons]
      rw [hb]
      have hps : p ∉ ps := (List.nodup_cons.mp hnd).1
      cases k with
      | zero =>
        have hnp : ∀ pr ∈ (ps.zip as).reverse, pr.1 ≠ p := by
          intro pr hpr
          have hmem : pr.1 ∈ ps.take as.length :=
            zipKeysTake ps as pr (List.mem_reverse.mp hpr)
          intro hc
          exact hps (hc ▸ List.take_subset _ _ hmem)
        simp only [List.getElem_cons_zero]
        rw [frameGetAppend, frameGetNone _ _ hnp]
        simp [frameGet?]
      | succ k =>
        have hk1 : k < ps.length := by simpa using h1
        have hk2 : k < as.length := by simpa using h2
        have ih' := ih as k hk1 hk2 (List.nodup_cons.mp hnd).2
        rw [frameGetAppend]
        simp only [List.getElem_cons_succ]
        rw [bindParams_eq] at ih'
        rw [ih']

/- ## Helper lemmas about the tokenizer and reader -/

theorem dropWhileAppend {α : Type} (p : α → Bool) :
    ∀ (l1 l2 : List α), l1.all p = true →
      (l1 ++ l2).dropWhile p = l2.dropWhile p := by
  intro l1
  induction l1 with
  | nil => intro l2 _; rfl
  | cons a l ih =>
    intro l2 h
    simp only [List.all_cons, Bool.and_eq_true] at h
    simp [List.dropWhile_cons, h.1, ih l2 h.2]

theorem restAfterComment :
    ∀ cs : List Char, restOfLine (cs.dropWhile (fun c => c != '\n')) = [] := by
  intro cs
  induction cs with
  | nil => rfl
  | cons c rest ih =>
    by_cases h : c = '\n'
    · subst h; simp [List.dropWhile_cons, restOfLine]
    · simpa [List.dropWhile_cons, h] using ih

theorem readErrsAux : ∀ fuel : Nat,
    (∀ t st m, readAhead fuel t st = .error (.synError m) →
      m = "Unexpected )" ∨ m = "Unexpected EOF in list")
    ∧ (∀ st acc m, readList fuel st acc = .error (.synError m) →
      m = "Unexpected )" ∨ m = "Unexpected EOF in list") := by
  intro fuel
  induction fuel with
  | zero =>
    constructor
    · intro t st m h; simp [readAhead] at h
    · intro st acc m h; simp [readList] at h
  | succ f ih =>
    obtain ⟨ihA, ihL⟩ := ih
    constructor
    · intro t st m h
      simp only [readAhead] at h
      split at h
      · exact ihL _ _ _ h
      · split at h
        · left; cases h; rfl
        · cases t with
          | eof => right; cases h; rfl
          | tok s => simp at h
    · intro st acc m h
      simp only [readList] at h
      split at h
      · simp at h
      · split at h
        · simp at h
        · split at h
          · cases h; exact ihA _ _ _ (by assumption)
          · exact ihL _ _ _ h

theorem bindParamsNone (params : List String) (args : List Expression) (p : String)
    (hp : p ∉ params.take args.length) : frameGet? (bindParams params args) p = none := by
  apply frameGetNone
  intro pr hpr
  rw [bindParams_eq, List.mem_reverse] at hpr
  intro hc
  exact hp (hc ▸ zipKeysTake params args pr hpr)

/- ## Helper lemmas about the evaluator and the store -/

theorem envSet_length (st : State) (i : Nat) (s : String) (v : Expression) :
    (envSet st i s v).length = st.length := by
  simp only [envSet]
  split <;> simp

theorem envSet_get_ne (st : State) (i j : Nat) (s : String) (v : Expression)
    (hne : j ≠ i) : (envSet st i s v)[j]? = st[j]? := by
  simp only [envSet]
  split
  · exact List.getElem?_set_ne (Ne.symm hne)
  · rfl

theorem WFState_spec {st : State} (h : WFState st = true) :
    ∀ j, j < st.length → ∀ fr, st[j]? = some fr → ∀ k, fr.outer = some k → k < j := by
  intro j hj fr hfr k hk
  have h1 := List.all_eq_true.mp h j (List.mem_range.mpr hj)
  simp only [hfr] at h1
  simp only [frameOK, hk] at h1
  exact of_decide_eq_true h1

/-- Evaluation in environment `i` leaves every other pre-existing frame
untouched: the store only grows, and of the frames that already existed only
frame `i` (the current environment, mutated by `define`) can change.
Procedure application touches no pre-existing frame at all (its body runs in
a freshly appended frame). -/
theorem evalPreserve : ∀ fuel : Nat,
    (∀ oexp i st st' v, eval_ fuel oexp i st = .ok (st', v) →
      st.length ≤ st'.length ∧ ∀ j, j < st.length → j ≠ i → st'[j]? = st[j]?)
    ∧ (∀ es i st st' vs, evalSeq fuel es i st = .ok (st', vs) →
      st.length ≤ st'.length ∧ ∀ j, j < st.length → j ≠ i → st'[j]? = st[j]?)
    ∧ (∀ fexp args st st' v, apply_ fuel fexp args st = .ok (st', v) →
      st.length ≤ st'.length ∧ ∀ j, j < st.length → st'[j]? = st[j]?) := by
  intro fuel
  induction fuel with
  | zero =>
    refine ⟨fun oexp i st st' v h => ?_, fun es i st st' vs h => ?_,
      fun fexp args st st' v h => ?_⟩ <;> simp [eval_, evalSeq, apply_] at h
  | succ f ih =>
    obtain ⟨ihE, ihS, ihA⟩ := ih
    refine ⟨?_, ?_, ?_⟩
    · intro oexp i st st' v h
      simp only [eval_] at h
      split at h
      · simp at h
      · split at h
        · simp at h
        · -- Symbol
          split at h
          · cases h; exact ⟨le_refl _, fun j hj hne => rfl⟩
          · simp at h
        · -- Number
          cases h; exact ⟨le_refl _, fun j hj hne => rfl⟩
        · simp at h
        · simp at h
        · simp at h
        · -- List (first :: rest)
          split at h
          · -- define
            split at h
            · split at h
              · -- sym is a Symbol
                cases h
                refine ⟨by simp [envSet_length], fun j hj hne => envSet_get_ne st i j _ _ hne⟩
              · simp at h
            · simp at h
          · split at h
            · -- begin
              split at h
              · simp at h
              · rename_i st2 vals hseq
                split at h
                · cases h
                  obtain ⟨hlen, hpres⟩ := ihS _ _ _ _ _ hseq
                  constructor
                  · refine le_trans ?_ hlen
                    simp
                  · intro j hj hne
                    have h1 := hpres j (by simp; omega) (Nat.ne_of_lt hj)
                    rw [h1, List.getElem?_append_left hj]
                · simp at h
            · -- application
              split at h
              · simp at h
              · rename_i st1 fv h1
                split at h
                · simp at h
                · rename_i st2 args h2
                  obtain ⟨l1, p1⟩ := ihE _ _ _ _ _ h1
                  obtain ⟨l2, p2⟩ := ihS _ _ _ _ _ h2
                  obtain ⟨l3, p3⟩ := ihA _ _ _ _ _ h
                  refine ⟨le_trans l1 (le_trans l2 l3), fun j hj hne => ?_⟩
                  rw [p3 j (lt_of_lt_of_le hj (le_trans l1 l2)),
                    p2 j (lt_of_lt_of_le hj l1) hne, p1 j hj hne]
    · intro es i st st' vs h
      cases es with
      | nil =>
        simp only [evalSeq] at h
        cases h
        exact ⟨le_refl _, fun j hj hne => rfl⟩
      | cons e es' =>
        simp only [evalSeq] at h
        split at h
        · simp at h
        · rename_i st1 v1 h1
          split at h
          · simp at h
          · rename_i st2 vs2 h2
            cases h
            obtain ⟨l1, p1⟩ := ihE _ _ _ _ _ h1
            obtain ⟨l2, p2⟩ := ihS _ _ _ _ _ h2
            refine ⟨le_trans l1 l2, fun j hj hne => ?_⟩
            rw [p2 j (lt_of_lt_of_le hj l1) hne, p1 j hj hne]
    · intro fexp args st st' v h
      cases fexp with
      | Procedure params body envId =>
        simp only [apply_] at h
        obtain ⟨l1, p1⟩ := ihE _ _ _ _ _ h
        constructor
        · refine le_trans ?_ l1
          simp
        · intro j hj
          have h1 := p1 j (by simp; omega) (Nat.ne_of_lt hj)
          rw [h1, List.getElem?_append_left hj]
      | BuiltinProcedure fn =>
        simp only [apply_] at h
        split at h
        · simp at h
        · split at h
          · simp at h
          · cases h; exact ⟨le_refl _, fun j hj => rfl⟩
      | Symbol s => simp [apply_] at h
      | Number n => simp [apply_] at h
      | List es => simp [apply_] at h

/-- Two stores that agree on every frame of a well-formed store `st` give
the same lookup results from any environment id inside `st`. -/
theorem lookup_congr (st st' : State)
    (agree : ∀ j, j < st.length → st'[j]? = st[j]?)
    (wf : WFState st = true) :
    ∀ lf i s, i < st.length → lookupEnv lf st' i s = lookupEnv lf st i s := by
  intro lf
  induction lf with
  | zero => intro i s hi; rfl
  | succ lf ih =>
    intro i s hi
    have hsi : st'[i]? = st[i]? := agree i hi
    cases hfr : st[i]? with
    | none => simp only [lookupEnv, hsi, hfr]
    | some fr =>
      simp only [lookupEnv, hsi, hfr]
      cases hb : frameGet? fr.bindings s with
      | some v => rfl
      | none =>
        simp only [hb]
        cases ho : fr.outer with
        | none => rfl
        | some k =>
          simp only [ho]
          exact ih k s (lt_trans (WFState_spec wf i hi fr hfr k ho) hi)

/-- The `begin` dispatch of `eval_`, as a plain equation: a fresh child
frame with parent `i` is appended, the trailing elements are evaluated in
sequence in it, and the last value (`values[-1]`) is returned. -/
theorem eval_begin_eq (fuel i : Nat) (st : State) (es : List Expression) :
    eval_ (fuel+1) (some (.List (.Symbol "begin" :: es))) i st
      = match evalSeq fuel es st.length (st ++ [⟨[], some i⟩]) with
        | .error e => .error e
        | .ok (st2, vals) =>
          match vals.getLast? with
          | some v => .ok (st2, v)
          | none => .error .indexError := rfl

/- ## Claim theorems -/

/-- C1: evaluating `(define sym val_expr)` (a list whose head is the symbol
`define` with exactly two trailing elements) binds `sym` to the raw,
unevaluated expression `val_expr` in the current (innermost) frame and
returns the NIL symbol; looking the symbol up afterwards yields exactly the
stored expression, not an evaluated copy. -/
theorem eval_define_binds_raw :
    (∀ fuel i st s val,
      eval_ (fuel+1) (some (.List [.Symbol "define", .Symbol s, val])) i st
        = .ok (envSet st i s val, NIL))
    ∧ (∀ lf st i s val, i < st.length →
      lookupEnv (lf+1) (envSet st i s val) i s = .ok val) := by
  constructor
  · intro fuel i st s val
    rfl
  · intro lf st i s val hi
    have h1 : st[i]? = some st[i] := List.getElem?_eq_getElem hi
    simp only [envSet, h1, lookupEnv, List.getElem?_set_eq_of_lt _ hi]
    simp [frameGet?]

/-- Witness for C1 at a concrete input. -/
theorem eval_define_binds_raw_w :
    lookupEnv 1 (envSet [⟨[], none⟩] 0 "x" (.Number 5)) 0 "x" = .ok (.Number 5) :=
  eval_define_binds_raw.2 0 [⟨[], none⟩] 0 "x" (.Number 5) (by decide)

/-- C3 (code bug): the claim says every `Number` is self-evaluating,
including `0`, but `Number(0)` is falsy (an `int` subclass), so the
`if not exp` guard of `eval_` raises `ValueError("Can't evaluate nothing")`
on it; every nonzero number evaluates to itself as claimed. -/
theorem eval_number_zero_bug :
    (∀ fuel i st, eval_ (fuel+1) (some (.Number 0)) i st
        = .error (.valueError "Can't evaluate nothing"))
    ∧ (∀ fuel i st n, n ≠ 0 →
        eval_ (fuel+1) (some (.Number n)) i st = .ok (st, .Number n)) := by
  constructor
  · intro fuel i st; rfl
  · intro fuel i st n hn
    have hf : pyFalsy (some (.Number n)) = false := by
      simp [pyFalsy, exprFalsy, hn]
    simp [eval_, hf]

/-- Witness for C3 at a concrete nonzero input. -/
theorem eval_number_zero_bug_w :
    eval_ 1 (some (.Number 3)) 0 [] = .ok ([], .Number 3) :=
  eval_number_zero_bug.2 0 0 [] 3 (by decide)

/-- C9: `eval_`'s first check rejects any falsy argument — the empty list,
the absent (`None`) expression, and every other falsy expression — with
`ValueError("Can't evaluate nothing")`, independently of the environment and
store, so an empty list never reaches the operator-position logic. -/
theorem eval_falsy_rejected :
    ∀ fuel oexp i st, pyFalsy oexp = true →
      eval_ (fuel+1) oexp i st = .error (.valueError "Can't evaluate nothing") := by
  intro fuel oexp i st h
  simp [eval_, h]

/-- Witness for C9 at the empty list. -/
theorem eval_falsy_rejected_w :
    eval_ 1 (some (.List [])) 0 [] = .error (.valueError "Can't evaluate nothing") :=
  eval_falsy_rejected 0 (some (.List [])) 0 [] (by decide)

/-- C2 counterexample: a comment line is *not* discarded: tokenizing the
line `"; hi\n"` yields the ordinary token `"; hi"`, and `read` turns it into
a `Symbol` expression.  (The regex captures `;.*` as the token and
`InStream.next` only checks that the token is nonempty.) -/
theorem comment_token_counterexample :
    InStream.next 2 ⟨["; hi\n"], none⟩ = some (.tok "; hi", ⟨[], some ""⟩)
    ∧ read 9 ⟨["; hi\n"], none⟩ = .ok (.Symbol "; hi", ⟨[], some ""⟩) := by
  constructor <;> rfl

/-- C2 (amended): the tokenizer skips leading whitespace (a run of
whitespace before the input changes no tokenization result) and keeps
advancing past blank/whitespace-only remainders — a successfully produced
token is never empty, it is either the EOF sentinel or nonempty text — but a
comment is *not* discarded: a line suffix beginning with `;` is captured as
one ordinary token running to the end of the line, with an empty
remainder. -/
theorem tokenizer_ws_comment_spec :
    (∀ ws s : String, ws.toList.all pySpace = true →
      matchToken (ws ++ s) = matchToken s)
    ∧ (∀ fuel st t st', InStream.next fuel st = some (t, st') →
        t = Token.eof ∨ ∃ x, t = Token.tok x ∧ x ≠ "")
    ∧ (∀ cs : List Char,
        matchTokenCore (';' :: cs)
          = ((';' :: cs.takeWhile (fun c => c != '\n')).asString, "")) := by
  refine ⟨?_, ?_, ?_⟩
  · intro ws s h
    simp only [matchToken]
    congr 1
    have hts : (ws ++ s).toList = ws.toList ++ s.toList := String.data_append ws s
    rw [hts, dropWhileAppend _ _ _ h]
  · intro fuel
    induction fuel with
    | zero => intro st t st' h; simp [InStream.next] at h
    | succ f ih =>
      intro st t st' h
      simp only [InStream.next] at h
      split at h <;> split at h
      all_goals try (cases h; exact Or.inl rfl)
      all_goals split at h
      all_goals try (exact ih _ _ _ h)
      all_goals rename_i hne
      all_goals cases h
      all_goals exact Or.inr ⟨_, rfl, by simpa using hne⟩
  · intro cs
    rw [matchTokenCore.eq_def]
    simp only [restAfterComment]
    rfl

/-- Witness for C2 at concrete inputs. -/
theorem tokenizer_ws_comment_spec_w :
    matchToken "  x" = matchToken "x"
    ∧ (Token.tok "; hi" = Token.eof ∨ ∃ x, Token.tok "; hi" = Token.tok x ∧ x ≠ "") :=
  ⟨tokenizer_ws_comment_spec.1 "  " "x" (by decide),
   tokenizer_ws_comment_spec.2.1 2 ⟨["; hi\n"], none⟩ (Token.tok "; hi")
     ⟨[], some ""⟩ (by rfl)⟩

/-- C8: the reader fails with a syntax error in exactly two situations: a
`)` token with no enclosing open list, and end-of-input while a list is
still open.  Concretely, `read` on `"(+ 1 2"` with the stream exhausted
fails with `SyntaxError("Unexpected EOF in list")`, `read` on `")"` alone
fails with `SyntaxError("Unexpected )")`, and every syntax error `read` can
produce carries one of exactly these two messages. -/
theorem read_syntax_error_spec :
    read 20 ⟨["(+ 1 2"], none⟩ = .error (.synError "Unexpected EOF in list")
    ∧ read 20 ⟨[")"], none⟩ = .error (.synError "Unexpected )")
    ∧ (∀ fuel st m, read fuel st = .error (.synError m) →
        m = "Unexpected )" ∨ m = "Unexpected EOF in list") := by
  refine ⟨rfl, rfl, ?_⟩
  intro fuel st m h
  cases fuel with
  | zero => simp [read] at h
  | succ f =>
    simp only [read] at h
    split at h
    · simp at h
    · simp at h
    · exact (readErrsAux f).1 _ _ _ h

/-- Witness for C8: the message of the concrete `")"` failure is one of the
two permitted messages. -/
theorem read_syntax_error_spec_w :
    "Unexpected )" = "Unexpected )" ∨ "Unexpected )" = "Unexpected EOF in list" :=
  read_syntax_error_spec.2.2 20 ⟨[")"], none⟩ "Unexpected )" (by rfl)

/-- C5 counterexample: the tokenizer *does* produce the sentinel's literal
text from real input — the line `"#<eof-object>"` tokenizes to an ordinary
token with that text — and the `Symbol` a user program obtains from it is
exactly equal to the designated end-of-input symbol. -/
theorem eof_symbol_equal_counterexample :
    InStream.next 2 ⟨["#<eof-object>"], none⟩
      = some (.tok "#<eof-object>", ⟨[], some ""⟩)
    ∧ Expression.Symbol "#<eof-object>" = EOF_SYMBOL := by
  constructor <;> rfl

/-- C5 (amended): `read` on an empty/exhausted source returns the designated
end-of-input symbol without raising; but that symbol is not distinguishable
by exact equality from every user-constructible symbol: reading the input
line `"#<eof-object>"` also returns a value exactly equal to `EOF_SYMBOL`. -/
theorem read_eof_sentinel_spec :
    (∀ fuel, read (fuel+1) ⟨[], none⟩ = .ok (EOF_SYMBOL, ⟨[], some ""⟩))
    ∧ read 9 ⟨["#<eof-object>"], none⟩ = .ok (EOF_SYMBOL, ⟨[], some ""⟩) := by
  exact ⟨fun fuel => rfl, rfl⟩

/-- C10: if the input text itself contains the token `#<eof-object>`, the
tokenizer produces it as an ordinary (`tok`) token — distinct from the
reserved `eof` sentinel object — and `read` returns it as an ordinary
`Symbol` expression through `Atom.of` rather than via the end-of-input
branch, because the end-of-input test is an identity test on the sentinel
object, not a comparison of token text. -/
theorem eof_text_token_ordinary :
    InStream.next 2 ⟨["#<eof-object>"], none⟩
      = some (.tok "#<eof-object>", ⟨[], some ""⟩)
    ∧ Token.tok "#<eof-object>" ≠ Token.eof
    ∧ read 9 ⟨["#<eof-object>"], none⟩
      = .ok (.Symbol "#<eof-object>", ⟨[], some ""⟩) := by
  refine ⟨rfl, ?_, rfl⟩
  decide

/-- C6 counterexample: a builtin can return a non-integral value that is
*not* coerced to a `Symbol`: on two list arguments the native `+` returns a
raw list, and wrapping it with `Atom.of` raises `TypeError` (only
`ValueError` is caught), so the application errors instead of producing a
`Symbol`. -/
theorem builtin_list_result_counterexample :
    callBuiltin .plus [.List [.Number 1], .List [.Number 2]]
      = .ok (.list [.Number 1, .Number 2])
    ∧ apply_ 1 (.BuiltinProcedure .plus) [.List [.Number 1], .List [.Number 2]] []
      = .error (.typeError "int() argument must be a string or a number, not list") := by
  constructor <;> rfl

/-- C6 (amended): applying a `BuiltinProcedure` invokes the native function
on the argument list and wraps the raw result with the reader's
literal-classification rule `Atom.of`: an int result becomes a `Number`; a
str result becomes a `Number` when it parses as an integer and a `Symbol` of
its textual form otherwise; any other result (such as a list) raises
`TypeError`. -/
theorem builtin_wrap_spec :
    (∀ fuel fn args st raw, callBuiltin fn args = .ok raw →
      apply_ (fuel+1) (.BuiltinProcedure fn) args st
        = match Atom.of raw with
          | .ok v => .ok (st, v)
          | .error e => .error e)
    ∧ (∀ n, Atom.of (.int n) = .ok (.Number n))
    ∧ (∀ s n, pyIntParse s = some n → Atom.of (.str s) = .ok (.Number n))
    ∧ (∀ s, pyIntParse s = none → Atom.of (.str s) = .ok (.Symbol s))
    ∧ (∀ es, Atom.of (.list es)
        = .error (.typeError "int() argument must be a string or a number, not list")) := by
  refine ⟨?_, fun n => rfl, ?_, ?_, fun es => rfl⟩
  · intro fuel fn args st raw h
    simp only [apply_, h]
    cases Atom.of raw <;> rfl
  · intro s n h; simp [Atom.of, atomOfStr, h]
  · intro s h; simp [Atom.of, atomOfStr, h]

/-- C4: evaluating `(begin e1 ... en)` creates a new child frame whose
parent is the current environment, evaluates the trailing elements in
sequence in that child frame, and returns the value of the last one; a
`begin` with zero trailing elements fails (with the `values[-1]`
IndexError); and after a successful `begin`, every lookup through the
enclosing environment is unchanged — defines executed inside bound only the
child frame, not `env`. -/
theorem eval_begin_spec :
    (∀ fuel i (st : State) (es : List Expression),
      eval_ (fuel+1) (some (.List (.Symbol "begin" :: es))) i st
        = match evalSeq fuel es st.length (st ++ [⟨[], some i⟩]) with
          | .error e => .error e
          | .ok (st2, vals) =>
            match vals.getLast? with
            | some v => .ok (st2, v)
            | none => .error .indexError)
    ∧ (∀ fuel i st, eval_ (fuel+2) (some (.List [.Symbol "begin"])) i st
        = .error .indexError)
    ∧ (∀ fuel i (st st' : State) v (es : List Expression),
        WFState st = true → i < st.length →
        eval_ fuel (some (.List (.Symbol "begin" :: es))) i st = .ok (st', v) →
        ∀ lf s, lookupEnv lf st' i s = lookupEnv lf st i s) := by
  refine ⟨eval_begin_eq, fun fuel i st => rfl, ?_⟩
  intro fuel i st st' v es hwf hi h
  cases fuel with
  | zero => simp [eval_] at h
  | succ f =>
    rw [eval_begin_eq] at h
    split at h
    · simp at h
    · rename_i st2 vals hseq
      split at h
      · cases h
        obtain ⟨hlen, hpres⟩ := (evalPreserve f).2.1 _ _ _ _ _ hseq
        intro lf s
        refine lookup_congr st _ ?_ hwf lf i s hi
        intro j hj
        have h1 := hpres j (by simp; omega) (Nat.ne_of_lt hj)
        rw [h1, List.getElem?_append_left hj]
      · simp at h

/-- Witness for C4: after a successful `(begin (define x 1) y)` in a
one-frame environment, looking `x` up through the original environment gives
the same (failing) result as before the `begin`. -/
theorem eval_begin_spec_w :
    lookupEnv 2 [⟨[("y", .Number 7)], none⟩, ⟨[("x", .Number 1)], some 0⟩] 0 "x"
      = lookupEnv 2 [⟨[("y", .Number 7)], none⟩] 0 "x" :=
  eval_begin_spec.2.2 5 0 [⟨[("y", .Number 7)], none⟩]
    [⟨[("y", .Number 7)], none⟩, ⟨[("x", .Number 1)], some 0⟩] (.Number 7)
    [.List [.Symbol "define", .Symbol "x", .Number 1], .Symbol "y"]
    (by decide) (by decide) (by rfl) 2 "x"

/-- C7: a new environment frame pairs parameters and arguments by position
(zipped): extra arguments beyond the parameters are silently ignored; a
parameter with no matching argument is absent from the frame, and looking it
up in an environment made of that frame alone fails with the undefined
symbol error; a matched parameter (under distinct parameter names) maps to
the argument in the same position. -/
theorem env_zip_spec :
    (∀ (params : List String) (args extra : List Expression) (outer : Option Nat),
      params.length ≤ args.length →
      newEnvFrame params (args ++ extra) outer = newEnvFrame params args outer)
    ∧ (∀ (params : List String) (args : List Expression) (outer : Option Nat)
        (p : String), p ∉ params.take args.length →
      frameGet? (newEnvFrame params args outer).bindings p = none)
    ∧ (∀ (params : List String) (args : List Expression) (p : String) (lf : Nat),
      p ∉ params.take args.length →
      lookupEnv (lf+1) [newEnvFrame params args none] 0 p
        = .error (.valueError "Undefined symbol"))
    ∧ (∀ (params : List String) (args : List Expression) (outer : Option Nat)
        (k : Nat) (h1 : k < params.length) (h2 : k < args.length),
      params.Nodup →
      frameGet? (newEnvFrame params args outer).bindings params[k] = some args[k]) := by
  refine ⟨?_, ?_, ?_, ?_⟩
  · intro params args extra outer h
    simp [newEnvFrame, bindParams, zipExtra _ _ _ h]
  · intro params args outer p hp
    simpa [newEnvFrame] using bindParamsNone params args p hp
  · intro params args p lf hp
    have h2 := bindParamsNone params args p hp
    simp [lookupEnv, newEnvFrame, h2]
  · intro params args outer k h1 h2 hnd
    simpa [newEnvFrame] using bindParamsLookup params args k h1 h2 hnd

/-- Witness for C7 at concrete parameter/argument lists. -/
theorem env_zip_spec_w :
    newEnvFrame ["x"] [.Number 1, .Number 2] none = newEnvFrame ["x"] [.Number 1] none
    ∧ frameGet? (newEnvFrame ["x", "y"] [.Number 1] none).bindings "y" = none
    ∧ lookupEnv 1 [newEnvFrame ["x", "y"] [.Number 1] none] 0 "y"
        = .error (.valueError "Undefined symbol")
    ∧ frameGet? (newEnvFrame ["x", "y"] [.Number 1, .Number 2] none).bindings "y"
        = some (.Number 2) :=
  ⟨env_zip_spec.1 ["x"] [.Number 1] [.Number 2] none (by decide),
   env_zip_spec.2.1 ["x", "y"] [.Number 1] none "y" (by decide),
   env_zip_spec.2.2.1 ["x", "y"] [.Number 1] "y" 0 (by decide),
   env_zip_spec.2.2.2 ["x", "y"] [.Number 1, .Number 2] none 1 (by decide) (by decide)
     (by decide)⟩

/-- Witness for C6 at a concrete builtin application. -/
theorem builtin_wrap_spec_w :
    apply_ 1 (.BuiltinProcedure .plus) [.Number 1, .Number 2] []
      = .ok ([], .Number 3) := by
  have h := builtin_wrap_spec.1 0 .plus [.Number 1, .Number 2] [] (.int 3) rfl
  simpa using h

end Lispish
